import Mathlib

/-!
Verification development for the gazette PDF document-extraction pipeline
(`src/pdf_analyzer.py`).  Strings are modelled as `List Char`; page texts
arrive from the external PDF-extraction collaborator, so all functions here
take text, not file paths.  The regular expressions of the source are small
and backtracking-free in the relevant sense (every `\s+`, `\d+`, `[^,]+`,
`[a-zA-Z]+` is followed by a literal or class that cannot overlap the
repeated set, so greedy maximal munch is equivalent to Python's semantics);
the single exception, `\d{1,2}`, is modelled with its two-way alternative
try.  They are embedded as token lists interpreted by `runToks`.
Case-insensitive matching (`re.IGNORECASE`) and Python's `str.upper` /
`str.lower` / NFKD-based `normalize_text` are modelled for the character
repertoire that occurs in this program (ASCII plus the Spanish letters
á é í ó ú ñ ü in both cases).
-/

namespace PdfAnalyzer

/-- Uppercase map modelling Python `str.upper` on the repertoire used. -/
def upc (c : Char) : Char :=
  if c = 'á' then 'Á' else if c = 'é' then 'É' else if c = 'í' then 'Í'
  else if c = 'ó' then 'Ó' else if c = 'ú' then 'Ú' else if c = 'ñ' then 'Ñ'
  else if c = 'ü' then 'Ü' else c.toUpper

/-- Lowercase map modelling Python `str.lower` on the repertoire used. -/
def lowc (c : Char) : Char :=
  if c = 'Á' then 'á' else if c = 'É' then 'é' else if c = 'Í' then 'í'
  else if c = 'Ó' then 'ó' else if c = 'Ú' then 'ú' else if c = 'Ñ' then 'ñ'
  else if c = 'Ü' then 'ü' else c.toLower

/-- Whitespace test modelling Python's regex `\s` / `str.strip` on the
characters that can occur in extracted page text. -/
def isWs (c : Char) : Bool :=
  c = ' ' || c = '\t' || c = '\n' || c = '\r' || c = '\x0b' || c = '\x0c'

/-- Character comparison, case-insensitively when `ci` is set (both sides
mapped through `upc`, as `re.IGNORECASE` folds case). -/
def cmpc (ci : Bool) (a c : Char) : Bool :=
  if ci then upc a = upc c else a = c

/-- ASCII letter test modelling the regex class `[a-zA-Z]`. -/
def isAsciiAlpha (c : Char) : Bool :=
  ('a' ≤ c && c ≤ 'z') || ('A' ≤ c && c ≤ 'Z')

/-- Tokens of the embedded regular-expression fragments used by the source:
literals, character classes, `\s+`, `\s*`, `\d+`, `\d{4}`, `[a-zA-Z]+`,
`[^c...]+` and `\d{1,2}`. -/
inductive RTok where
  | lit (c : Char)
  | cls (cs : List Char)
  | ws1
  | ws0
  | dplus
  | d4
  | alpha1
  | nplus (cs : List Char)
  | d12
deriving DecidableEq

/-- Literal token sequence for a string pattern fragment. -/
def lits (s : String) : List RTok := s.data.map RTok.lit

/-- Deterministic interpreter for a token list against a prefix of `s`.
Returns the captured texts of the capturing tokens (`dplus`, `d4`,
`alpha1`, `d12`) in order, or `none` when the pattern does not match at
this position.  Greedy repetition is maximal munch; `d12` tries the
two-digit reading before the one-digit one, as the backtracking engine
does. -/
def runToks (ci : Bool) : List RTok → List Char → Option (List (List Char))
  | [], _ => some []
  | RTok.lit c :: ts, s =>
    match s with
    | [] => none
    | a :: s' => if cmpc ci a c then runToks ci ts s' else none
  | RTok.cls cs :: ts, s =>
    match s with
    | [] => none
    | a :: s' => if cs.any (fun c => cmpc ci a c) then runToks ci ts s' else none
  | RTok.ws1 :: ts, s =>
    if (s.takeWhile isWs).isEmpty then none
    else runToks ci ts (s.dropWhile isWs)
  | RTok.ws0 :: ts, s => runToks ci ts (s.dropWhile isWs)
  | RTok.dplus :: ts, s =>
    let d := s.takeWhile Char.isDigit
    if d.isEmpty then none
    else (runToks ci ts (s.dropWhile Char.isDigit)).map (fun gs => d :: gs)
  | RTok.d4 :: ts, s =>
    let d := s.take 4
    if d.length = 4 && d.all Char.isDigit then
      (runToks ci ts (s.drop 4)).map (fun gs => d :: gs)
    else none
  | RTok.alpha1 :: ts, s =>
    let r := s.takeWhile isAsciiAlpha
    if r.isEmpty then none
    else (runToks ci ts (s.dropWhile isAsciiAlpha)).map (fun gs => r :: gs)
  | RTok.nplus cs :: ts, s =>
    let r := s.takeWhile (fun a => !cs.any (fun c => cmpc ci a c))
    if r.isEmpty then none
    else runToks ci ts (s.dropWhile (fun a => !cs.any (fun c => cmpc ci a c)))
  | RTok.d12 :: ts, s =>
    match s with
    | [] => none
    | [a] => if a.isDigit then (runToks ci ts []).map (fun gs => [a] :: gs) else none
    | a :: b :: s' =>
      if a.isDigit then
        if b.isDigit then
          match runToks ci ts s' with
          | some gs => some ([a, b] :: gs)
          | none => (runToks ci ts (b :: s')).map (fun gs => [a] :: gs)
        else (runToks ci ts (b :: s')).map (fun gs => [a] :: gs)
      else none

/-- Position of the first match of `m` in `s`, scanning every suffix from
the left, including the empty suffix at the end — the semantics of
`re.search`. -/
def searchPos (m : List Char → Bool) : List Char → Option Nat
  | [] => if m [] then some 0 else none
  | s@(_ :: t) => if m s then some 0 else (searchPos m t).map (· + 1)

/-- Number of match positions of `m` among the nonempty suffixes of `s`. -/
def matchCount (m : List Char → Bool) : List Char → Nat
  | [] => 0
  | s@(_ :: t) => (if m s then 1 else 0) + matchCount m t

/-- Python `str.strip`: drop leading and trailing whitespace. -/
def strip (l : List Char) : List Char :=
  ((l.dropWhile isWs).reverse.dropWhile isWs).reverse

/-- Python `str.split('\n')`: always at least one (possibly empty) piece. -/
def splitLines : List Char → List (List Char)
  | [] => [[]]
  | c :: t =>
    if c = '\n' then [] :: splitLines t
    else
      match splitLines t with
      | [] => [[c]]
      | l :: ls => (c :: l) :: ls

/-- Python `' '.join`. -/
def joinSpace : List (List Char) → List Char
  | [] => []
  | [x] => x
  | x :: rest => x ++ ' ' :: joinSpace rest

/-- Python `'\n'.join`. -/
def joinNl : List (List Char) → List Char
  | [] => []
  | [x] => x
  | x :: rest => x ++ '\n' :: joinNl rest

/-- Python substring test `needle in hay`. -/
def containsSub (needle : List Char) : List Char → Bool
  | [] => needle.isEmpty
  | hay@(_ :: t) => needle.isPrefixOf hay || containsSub needle t

/-- Python whitespace `str.split()`: fields separated by whitespace runs and
empty fields discarded, realised by splitting at every whitespace character
and dropping the empty pieces. -/
def splitWs (l : List Char) : List (List Char) :=
  (l.splitOnP isWs).filter (fun w => !w.isEmpty)

/-! ### Boundary patterns

`extract_documents` (source lines 414-421) searches case-insensitively for
`(TYPE)\s+N[ÚU]MERO\s+(\d+)\s+DE\s+(\d{4})` where the multi-word type names
carry literal single spaces; `extract_document_content` (source lines
299-305) searches case-sensitively for `TYPE\s+NÚMERO\s+\d+\s+DE\s+\d{4}`
with `\s+` between the words of multi-word type names, and those same five
patterns are used by `identify_document_type` after upper-casing. -/

/-- Shared tail `\s+N[ÚU]MERO\s+(\d+)\s+DE\s+(\d{4})` of the
case-insensitive boundary patterns. -/
def tailLax : List RTok :=
  [RTok.ws1, RTok.lit 'N', RTok.cls ['Ú', 'U']] ++ lits "MERO" ++
  [RTok.ws1, RTok.dplus, RTok.ws1] ++ lits "DE" ++ [RTok.ws1, RTok.d4]

/-- Shared tail `\s+NÚMERO\s+\d+\s+DE\s+\d{4}` of the case-sensitive
patterns. -/
def tailStrict : List RTok :=
  [RTok.ws1] ++ lits "NÚMERO" ++
  [RTok.ws1, RTok.dplus, RTok.ws1] ++ lits "DE" ++ [RTok.ws1, RTok.d4]

/-- The five case-insensitive boundary patterns of `extract_documents`, in
source order. -/
def ciToks : List (List RTok) :=
  [lits "DECRETO" ++ tailLax,
   lits "RESOLUCIÓN" ++ tailLax,
   lits "RESOLUCIÓN EJECUTIVA" ++ tailLax,
   lits "CIRCULAR EXTERNA CONJUNTA" ++ tailLax,
   lits "ACUERDO" ++ tailLax]

/-- Case-sensitive pattern `DECRETO\s+NÚMERO\s+\d+\s+DE\s+\d{4}`. -/
def decStrict : List RTok := lits "DECRETO" ++ tailStrict

/-- Case-sensitive pattern `RESOLUCIÓN\s+NÚMERO\s+\d+\s+DE\s+\d{4}`. -/
def resStrict : List RTok := lits "RESOLUCIÓN" ++ tailStrict

/-- Case-sensitive pattern `RESOLUCIÓN\s+EJECUTIVA\s+NÚMERO\s+...`. -/
def resEjStrict : List RTok :=
  lits "RESOLUCIÓN" ++ [RTok.ws1] ++ lits "EJECUTIVA" ++ tailStrict

/-- Case-sensitive pattern `CIRCULAR\s+EXTERNA\s+CONJUNTA\s+NÚMERO\s+...`. -/
def circStrict : List RTok :=
  lits "CIRCULAR" ++ [RTok.ws1] ++ lits "EXTERNA" ++ [RTok.ws1] ++
  lits "CONJUNTA" ++ tailStrict

/-- Case-sensitive pattern `ACUERDO\s+NÚMERO\s+\d+\s+DE\s+\d{4}`. -/
def acuStrict : List RTok := lits "ACUERDO" ++ tailStrict

/-- The five case-sensitive patterns of `extract_document_content`, in
source order. -/
def csToks : List (List RTok) :=
  [decStrict, resStrict, resEjStrict, circStrict, acuStrict]

/-- Some case-insensitive boundary pattern matches at the head of `s`. -/
def ciMatch (s : List Char) : Bool :=
  ciToks.any (fun p => (runToks true p s).isSome)

/-- Some case-sensitive boundary pattern matches at the head of `s`. -/
def csMatch (s : List Char) : Bool :=
  csToks.any (fun p => (runToks false p s).isSome)

/-! ### `extract_document_content` and the boundary scan -/

/-- Slice `text[a:b]` of Python. -/
def slice (text : List Char) (a b : Nat) : List Char :=
  (text.drop a).take (b - a)

/-- Embedding of `extract_document_content` (source lines 287-317): search
the case-sensitive combined pattern in `text[start_index + 1:]`; on a hit
the document runs to that position, otherwise to the end of the text. -/
def extract_document_content (text : List Char) (start : Nat) :
    List Char × Nat :=
  match searchPos csMatch (text.drop (start + 1)) with
  | some r => (strip (slice text start (start + 1 + r)), start + 1 + r)
  | none => (strip (text.drop start), text.length)

/-- The boundary-scan loop of `extract_documents` (source lines 423-459),
reduced to the spans it visits: from the current offset, search the
case-insensitive combined pattern; a hit at `start` yields the span
`(start, next)` with `next` taken from `extract_document_content`, and the
scan resumes at `next`.  `fuel` is an upper bound on the iteration count;
the offset strictly increases, so `length + 1` suffices. -/
def scanSpansAux (s : List Char) : Nat → Nat → List (Nat × Nat)
  | 0, _ => []
  | fuel + 1, current =>
    match searchPos ciMatch (s.drop current) with
    | none => []
    | some rel =>
      let start := current + rel
      let nxt := (extract_document_content s start).2
      (start, nxt) :: scanSpansAux s fuel nxt

/-- All document spans produced by the boundary scan. -/
def scanSpans (s : List Char) : List (Nat × Nat) :=
  scanSpansAux s (s.length + 1) 0

/-! ### Title parsing -/

/-- The five type keywords of the anchored title pattern (source line 434),
in alternation order; multi-word keywords carry literal single spaces. -/
def titleKws : List (List Char) :=
  ["DECRETO".data, "RESOLUCIÓN".data, "RESOLUCIÓN EJECUTIVA".data,
   "CIRCULAR EXTERNA CONJUNTA".data, "ACUERDO".data]

/-- Token list of one alternative of the anchored title pattern. -/
def titleToksOf (kw : List Char) : List RTok := kw.map RTok.lit ++ tailLax

/-- Embedding of the anchored case-insensitive `re.match` of source line
434, alternatives tried in order with full continuation (the engine
backtracks into the alternation).  On success `group(1).upper()` equals the
pattern keyword itself, because matching is case-insensitive against the
upper-case keyword; so the returned triple is
`(tipo.upper(), numero, anio)`. -/
def titleMatch (t : List Char) : Option (List Char × List Char × List Char) :=
  (titleKws.map (fun kw =>
    match runToks true (titleToksOf kw) t with
    | some (n :: y :: _) => some (kw, n, y)
    | _ => none)).foldr (fun o acc => o.orElse (fun _ => acc)) none

/-- The `(tipo, numero, anio)` fields of source lines 434-437: the matched
triple, or three empty strings when the anchored match fails. -/
def tripleFrom (t : List Char) : List Char × List Char × List Char :=
  match titleMatch t with
  | some tr => tr
  | none => ([], [], [])

/-- A stripped line that begins with `(` and ends with `)` (source line
442); the empty line satisfies neither test. -/
def isDateLine (l : List Char) : Bool :=
  l.headD ' ' = '(' && l.getLastD ' ' = ')'

/-- The scan of source lines 439-445 over the lines after the title: a
date-annotation line is remembered (last one wins), every other line is
collected for the description. -/
def dateScan : List (List Char) → List Char × List (List Char)
  | [] => ([], [])
  | l :: rest =>
    let line := strip l
    let (d, ds) := dateScan rest
    if isDateLine line then (if d.isEmpty then line else d, ds)
    else (d, line :: ds)

/-- Title line of a document span: its first line, stripped (source line
432). -/
def titleLineOf (content : List Char) : List Char :=
  strip ((splitLines content).headD [])

/-- The captured date-annotation line of a span (empty when none). -/
def dateOf (content : List Char) : List Char :=
  (dateScan (splitLines content).tail).1

/-- The `titulo` field: the title line, with the date annotation appended
as a second line when one was captured (source lines 447-448). -/
def tituloOf (content : List Char) : List Char :=
  if (dateOf content).isEmpty then titleLineOf content
  else titleLineOf content ++ '\n' :: dateOf content

/-- The `descripcion` field: the non-title non-date lines joined with
newlines and stripped (source line 446). -/
def descripcionOf (content : List Char) : List Char :=
  strip (joinNl (dateScan (splitLines content).tail).2)

/-! ### `identify_document_type` -/

/-- Search one case-sensitive pattern anywhere in `t`. -/
def hasPat (p : List RTok) (t : List Char) : Bool :=
  (searchPos (fun u => (runToks false p u).isSome) t).isSome

/-- Embedding of `identify_document_type` (source lines 319-340):
upper-case the title, then an ordered waterfall of case-sensitive pattern
searches — DECRETO, RESOLUCIÓN EJECUTIVA, RESOLUCIÓN, CIRCULAR EXTERNA
CONJUNTA, ACUERDO — defaulting to OTRO. -/
def identify_document_type (title : List Char) : List Char :=
  let t := title.map upc
  if hasPat decStrict t then "DECRETO".data
  else if hasPat resEjStrict t then "RESOLUCIÓN EJECUTIVA".data
  else if hasPat resStrict t then "RESOLUCIÓN".data
  else if hasPat circStrict t then "CIRCULAR EXTERNA CONJUNTA".data
  else if hasPat acuStrict t then "ACUERDO".data
  else "OTRO".data

/-! ### `extract_publication_date` -/

/-- Token list of the date-header pattern of source line 353:
`Bogotá, D\. C\., [^,]+,\s+(\d{1,2})\s+de\s+([a-zA-Z]+)\s+de\s+(\d{4})`. -/
def dateToks : List RTok :=
  lits "Bogotá, D. C., " ++ [RTok.nplus [','], RTok.lit ',', RTok.ws1,
  RTok.d12, RTok.ws1] ++ lits "de" ++ [RTok.ws1, RTok.alpha1, RTok.ws1] ++
  lits "de" ++ [RTok.ws1, RTok.d4]

/-- `re.search` of the date-header pattern: groups `(day, month, year)` of
the leftmost match. -/
def dateSearch (s : List Char) : Option (List Char × List Char × List Char) :=
  match searchPos (fun u => (runToks false dateToks u).isSome) s with
  | none => none
  | some p =>
    match runToks false dateToks (s.drop p) with
    | some (d :: m :: y :: _) => some (d, m, y)
    | _ => none

/-- The fixed 12-entry Spanish month lookup of source lines 362-366. -/
def month_map : List (List Char × List Char) :=
  [("enero".data, "01".data), ("febrero".data, "02".data),
   ("marzo".data, "03".data), ("abril".data, "04".data),
   ("mayo".data, "05".data), ("junio".data, "06".data),
   ("julio".data, "07".data), ("agosto".data, "08".data),
   ("septiembre".data, "09".data), ("octubre".data, "10".data),
   ("noviembre".data, "11".data), ("diciembre".data, "12".data)]

/-- Association-list lookup (Python `dict.get` without default). -/
def alookup : List (List Char × List Char) → List Char → Option (List Char)
  | [], _ => none
  | (k, v) :: rest, key => if k = key then some v else alookup rest key

/-- Python `str.zfill(2)`. -/
def zfill2 (d : List Char) : List Char :=
  List.replicate (2 - d.length) '0' ++ d

/-- Embedding of `extract_publication_date` (source lines 342-372): on a
header match, format `YYYY-MM-DD` with the month taken from
`month_map.get(month.lower(), '01')` and the day zero-filled; otherwise the
empty string.  The `try` of the source cannot raise on these operations, so
no error branch arises. -/
def extract_publication_date (s : List Char) : List Char :=
  match dateSearch s with
  | none => []
  | some (d, m, y) =>
    y ++ '-' :: ((alookup month_map (m.map lowc)).getD "01".data) ++
    '-' :: zfill2 d

/-! ### `normalize_text`, `clean_entity_name`, `find_entity_fuzzy` -/

/-- One character of `normalize_text`: NFKD-decompose, drop the combining
accent, encode ASCII-with-ignore, upper-case.  ASCII characters map through
`upc`; the Spanish accented letters map to their upper-cased base letter;
any other non-ASCII character is dropped. -/
def normChar (c : Char) : Option Char :=
  if c.toNat < 128 then some (upc c)
  else if c = 'á' ∨ c = 'Á' then some 'A'
  else if c = 'é' ∨ c = 'É' then some 'E'
  else if c = 'í' ∨ c = 'Í' then some 'I'
  else if c = 'ó' ∨ c = 'Ó' then some 'O'
  else if c = 'ú' ∨ c = 'Ú' then some 'U'
  else if c = 'ñ' ∨ c = 'Ñ' then some 'N'
  else if c = 'ü' ∨ c = 'Ü' then some 'U'
  else none

/-- Embedding of `normalize_text` (source lines 215-217) for the modelled
repertoire. -/
def normalize_text (s : List Char) : List Char := s.filterMap normChar

/-- Prefix of `l` before the first occurrence of `c` (Python
`split(c)[0]`). -/
def takeUntil (c : Char) (l : List Char) : List Char :=
  l.takeWhile (fun a => a ≠ c)

/-- The institution keywords of `clean_entity_name`'s anchored pattern, in
alternation order. -/
def entityKws : List (List Char) :=
  ["MINISTERIO".data, "DEPARTAMENTO".data, "ORGANISMO".data, "ENTIDAD".data]

/-- The character class `[A-ZÁÉÍÓÚÑ\s]` under `re.IGNORECASE`. -/
def inEntityCls (c : Char) : Bool :=
  ('A' ≤ c && c ≤ 'Z') || ('a' ≤ c && c ≤ 'z') || isWs c ||
  c = 'Á' || c = 'É' || c = 'Í' || c = 'Ó' || c = 'Ú' || c = 'Ñ' ||
  c = 'á' || c = 'é' || c = 'í' || c = 'ó' || c = 'ú' || c = 'ñ'

/-- Case-insensitive anchored literal: on success returns the rest. -/
def dropLitCi : List Char → List Char → Option (List Char)
  | [], s => some s
  | _ :: _, [] => none
  | c :: pat, a :: s => if cmpc true a c then dropLitCi pat s else none

/-- Anchored match of `((KW)[A-ZÁÉÍÓÚÑ\s]+)` (source line 199): the first
keyword whose continuation (at least one class character) succeeds wins;
returns `group(1)`, the matched prefix of the input. -/
def entityHeadMatch (s : List Char) : Option (List Char) :=
  (entityKws.map (fun kw =>
    match dropLitCi kw s with
    | none => none
    | some rest =>
      let run := rest.takeWhile inEntityCls
      if run.isEmpty then none
      else some (s.take (kw.length + run.length)))).foldr
    (fun o acc => o.orElse (fun _ => acc)) none

/-- Letter test for `str.title` over the modelled repertoire. -/
def isAlphaRep (c : Char) : Bool :=
  isAsciiAlpha c ||
  c = 'Á' || c = 'É' || c = 'Í' || c = 'Ó' || c = 'Ú' || c = 'Ñ' || c = 'Ü' ||
  c = 'á' || c = 'é' || c = 'í' || c = 'ó' || c = 'ú' || c = 'ñ' || c = 'ü'

/-- Python `str.title`: a letter after a non-letter is upper-cased, a
letter after a letter is lower-cased. -/
def titleCaseAux : Bool → List Char → List Char
  | _, [] => []
  | prevAlpha, c :: t =>
    (if isAlphaRep c then (if prevAlpha then lowc c else upc c) else c) ::
    titleCaseAux (isAlphaRep c) t

/-- Python `str.title` on a string. -/
def titleCase (l : List Char) : List Char := titleCaseAux false l

/-- The stopword list of `clean_entity_name` (source lines 195-197). -/
def stopwords : List (List Char) :=
  ["COMUNICAR".data, "POR".data, "DECRETO".data, "RESOLUCIÓN".data,
   "RESOLUCION".data, "ACUERDO".data, "CIRCULAR".data, "CONTENIDO".data,
   "PRESENTE".data, "DOCTORES".data]

/-- Words kept before the first stopword (comparison on the upper-cased
word). -/
def keepUntilStop (ws : List (List Char)) : List (List Char) :=
  ws.takeWhile (fun w => !(stopwords.contains (w.map upc)))

/-- Embedding of `clean_entity_name` (source lines 186-213). -/
def clean_entity_name (entity : List Char) : List Char :=
  if entity.isEmpty then entity
  else
    let e1 := takeUntil '.' (takeUntil '\n' entity)
    match entityHeadMatch (strip e1) with
    | some g1 =>
      let nombre := strip g1
      let kept := keepUntilStop (splitWs nombre)
      if !kept.isEmpty then titleCase (joinSpace kept)
      else titleCase nombre
    | none => titleCase (joinSpace ((splitWs (strip e1)).take 8))

/-- A table-of-contents entry: the institution heading in effect and the
raw line. -/
structure TocEntry where
  entidad : List Char
  linea : List Char
deriving DecidableEq

/-- The last entry of the list whose `entidad` is non-empty (the
`last_entity` accumulated by tier 1 of `find_entity_fuzzy` when no tier-1
match fires). -/
def lastNonEmptyEntity : List TocEntry → Option (List Char)
  | [] => none
  | e :: rest =>
    match lastNonEmptyEntity rest with
    | some x => some x
    | none => if e.entidad.isEmpty then none else some e.entidad

/-- Embedding of `find_entity_fuzzy` (source lines 219-250): a four-tier
waterfall over the table-of-contents entries, with the sentinel as final
fallback. -/
def find_entity_fuzzy (toc : List TocEntry)
    (tipo0 numero0 anio0 : List Char) : List Char :=
  let tipo := normalize_text tipo0
  let numero := normalize_text numero0
  let anio := normalize_text anio0
  match toc.find? (fun e =>
      containsSub tipo (normalize_text e.linea) &&
      containsSub numero (normalize_text e.linea) &&
      containsSub anio (normalize_text e.linea)) with
  | some e => clean_entity_name e.entidad
  | none =>
    match toc.find? (fun e =>
        containsSub numero (normalize_text e.linea) &&
        containsSub anio (normalize_text e.linea)) with
    | some e => clean_entity_name e.entidad
    | none =>
      match toc.find? (fun e => containsSub anio (normalize_text e.linea)) with
      | some e => clean_entity_name e.entidad
      | none =>
        match lastNonEmptyEntity toc with
        | some ent => clean_entity_name ent
        | none => "INSTITUCIÓN DESCONOCIDA".data

/-! ### `process_two_column_text` -/

/-- A stripped line ends with a hyphen. -/
def endsHyphen (l : List Char) : Bool := l.getLastD ' ' = '-'

/-- The line loop of `process_two_column_text` (source lines 267-283):
`cur` is the list of held fragments; a line ending in `-` joins it with the
hyphen dropped; any other line is emitted space-joined with the held
fragments; a leftover fragment list is emitted at the end. -/
def ptctLoop : List (List Char) → List (List Char) → List (List Char)
  | [], cur => if cur.isEmpty then [] else [joinSpace cur]
  | l :: rest, cur =>
    let line := strip l
    if line.isEmpty then ptctLoop rest cur
    else if endsHyphen line then ptctLoop rest (cur ++ [line.dropLast])
    else joinSpace (cur ++ [line]) :: ptctLoop rest []

/-- Embedding of `process_two_column_text` (source lines 252-285). -/
def process_two_column_text (text : List Char) : List Char :=
  joinNl (ptctLoop (splitLines text) [])

/-! ### `extract_table_of_contents` -/

/-- Token list of `C\s*o\s*n\s*t\s*e\s*n\s*i\s*d\s*o` (source line 153). -/
def contenidoToks : List RTok :=
  [RTok.lit 'C', RTok.ws0, RTok.lit 'o', RTok.ws0, RTok.lit 'n', RTok.ws0,
   RTok.lit 't', RTok.ws0, RTok.lit 'e', RTok.ws0, RTok.lit 'n', RTok.ws0,
   RTok.lit 'i', RTok.ws0, RTok.lit 'd', RTok.ws0, RTok.lit 'o']

/-- A line containing the (possibly letter-spaced) "Contenido" heading,
case-insensitively. -/
def isContenidoLine (l : List Char) : Bool :=
  (searchPos (fun u => (runToks true contenidoToks u).isSome) l).isSome

/-- A line matching the region-end idiom `P[áa]gina|^\d+$` of source line
162, case-insensitively. -/
def isPageBreakLine (l : List Char) : Bool :=
  (searchPos (fun u =>
    (runToks true (lits "Página") u).isSome ||
    (runToks true (lits "Pagina") u).isSome) l).isSome ||
  (!l.isEmpty && l.all Char.isDigit)

/-- Index of the first element satisfying `p`, if any. -/
def findIdx? (p : List Char → Bool) : List (List Char) → Option Nat
  | [] => none
  | l :: rest =>
    if p l then some 0 else (findIdx? p rest).map (· + 1)

/-- The table-of-contents region `lines[toc_start:toc_end]` of source lines
150-165: from the "Contenido" heading (inclusive) to the first page-break
line strictly after it (exclusive), or to the end of the text. -/
def tocRegion (lines : List (List Char)) : List (List Char) :=
  match findIdx? isContenidoLine lines with
  | none => []
  | some st =>
    let rest := lines.drop st
    match findIdx? isPageBreakLine rest.tail with
    | none => rest
    | some r => rest.take (r + 1)

/-- A stripped line matching the anchored institution-heading pattern
`^(MINISTERIO|DEPARTAMENTO|ENTIDAD|ORGANISMO)[^\n]*` case-insensitively
(source line 169): the tail `[^\n]*` always succeeds, so the test is a
case-insensitive keyword prefix. -/
def entityMatch (l : List Char) : Bool :=
  ("MINISTERIO".data.isPrefixOf (l.map upc)) ||
  ("DEPARTAMENTO".data.isPrefixOf (l.map upc)) ||
  ("ENTIDAD".data.isPrefixOf (l.map upc)) ||
  ("ORGANISMO".data.isPrefixOf (l.map upc))

/-- The entry-building loop of `extract_table_of_contents` (source lines
167-184): empty lines are skipped, an institution heading becomes the
current entity, and every other line is recorded against the current
entity when one exists. -/
def tocScan : List (List Char) → Option (List Char) → List TocEntry
  | [], _ => []
  | l :: rest, cur =>
    let line := strip l
    if line.isEmpty then tocScan rest cur
    else if entityMatch line then tocScan rest (some (strip line))
    else
      match cur with
      | some e => { entidad := e, linea := line } :: tocScan rest cur
      | none => tocScan rest cur

/-- Embedding of `extract_table_of_contents` (source lines 136-184) over
the raw full-text lines. -/
def extract_table_of_contents (lines : List (List Char)) : List TocEntry :=
  tocScan (tocRegion lines) none

/-! ### Record assembly -/

/-- The output record of `extract_documents` (source lines 452-458): the
exact field set of the emitted dict. -/
structure DocRecord where
  tipo_documento : List Char
  titulo : List Char
  descripcion : List Char
  fecha_publicacion : List Char
  institucion : List Char
deriving DecidableEq

/-- The key list of the emitted dict literal, in insertion order — the
value of `list(doc.keys())` for every record the source builds. -/
def DocRecord.keys (_ : DocRecord) : List (List Char) :=
  ["tipo_documento".data, "titulo".data, "descripcion".data,
   "fecha_publicacion".data, "institucion".data]

/-- A record with all fields empty. -/
def emptyRecord : DocRecord :=
  { tipo_documento := [], titulo := [], descripcion := [],
    fecha_publicacion := [], institucion := [] }

/-- Assembly of one record from a span (source lines 430-458).  The span's
content is `strip (slice s start next)`, which is what
`extract_document_content` returns for the span the loop visits. -/
def buildRecord (s : List Char) (toc : List TocEntry) (pubdate : List Char)
    (sp : Nat × Nat) : DocRecord :=
  let content := strip (slice s sp.1 sp.2)
  let (tipo, numero, anio) := tripleFrom (titleLineOf content)
  { tipo_documento := identify_document_type (tituloOf content)
    titulo := tituloOf content
    descripcion := descripcionOf content
    fecha_publicacion := pubdate
    institucion := find_entity_fuzzy toc tipo numero anio }

/-- The document list built by `extract_documents` from the reflowed issue
text and the table-of-contents entries (source lines 408-460). -/
def extract_documents_core (s : List Char) (toc : List TocEntry) :
    List DocRecord :=
  (scanSpans s).map (buildRecord s toc (extract_publication_date s))

/-- Embedding of `extract_documents` (source lines 392-460) over the
per-page texts delivered by the external PDF extractor: pages with empty
text are skipped, the remaining pages are reflowed and joined; the
table of contents is extracted from the same pages without reflow. -/
def extract_documents (pages : List (List Char)) : List DocRecord :=
  let kept := pages.filter (fun p => !p.isEmpty)
  let rawFull := joinNl kept
  let full := joinNl (kept.map process_two_column_text)
  extract_documents_core full (extract_table_of_contents (splitLines rawFull))

/-! ### Predicates used by the theorems -/

/-- A string has no trailing whitespace (stripped strings and their
suffixes satisfy this). -/
def noTrailWs (l : List Char) : Bool :=
  match l.getLast? with
  | none => true
  | some c => !isWs c

/-- A token whose first-character test rejects `(`: placed after a
whitespace token it makes the pattern fail on a date-annotation line. -/
def rejectsOpenParen (ci : Bool) : RTok → Bool
  | RTok.lit c => !cmpc ci '(' c
  | RTok.cls cs => !cs.any (fun c => cmpc ci '(' c)
  | RTok.dplus => true
  | RTok.d4 => true
  | _ => false

/-- Token lists whose match at a position inside a stripped line is
unaffected by appending `'\n' :: '(' :: _`: literals and classes reject
both `\n` and `(`, whitespace tokens are followed by a `(`-rejecting
token, and the unrestricted repetitions do not occur. -/
def benign (ci : Bool) : List RTok → Bool
  | [] => true
  | RTok.lit c :: ts => !cmpc ci '\n' c && !cmpc ci '(' c && benign ci ts
  | RTok.cls cs :: ts =>
    cs.all (fun c => !cmpc ci '\n' c && !cmpc ci '(' c) && benign ci ts
  | RTok.ws1 :: ts =>
    (match ts with | t :: _ => rejectsOpenParen ci t | [] => false) &&
    benign ci ts
  | RTok.dplus :: ts => benign ci ts
  | RTok.d4 :: ts => benign ci ts
  | _ => false

/-- Each span's end equals the next span's start. -/
def contiguous : List (Nat × Nat) → Bool
  | [] => true
  | [_] => true
  | a :: b :: t => a.2 == b.1 && contiguous (b :: t)

/-- The six possible values of `tipo_documento`. -/
def sixTypes : List (List Char) :=
  ["DECRETO".data, "RESOLUCIÓN EJECUTIVA".data, "RESOLUCIÓN".data,
   "CIRCULAR EXTERNA CONJUNTA".data, "ACUERDO".data, "OTRO".data]

/-! ### Concrete example texts for the counterexamples and witnesses -/

/-- Reflowed text with two boundary markers, the second in lower case with
unaccented NUMERO. -/
def c1text : List Char :=
  "DECRETO NÚMERO 1 DE 2020 x decreto numero 2 de 2021".data

/-- Reflowed text with two canonical-form boundary markers. -/
def c1wtext : List Char :=
  "DECRETO NÚMERO 1 DE 2020 ACUERDO NÚMERO 2 DE 2021".data

/-- Reflowed text whose second marker carries two spaces inside the type
name, so only the case-sensitive termination patterns recognise it. -/
def c2text : List Char :=
  "DECRETO NÚMERO 1 DE 2020 x RESOLUCIÓN  EJECUTIVA NÚMERO 2 DE 2020".data

/-- Reflowed text with two canonical-form boundary markers. -/
def c2wtext : List Char :=
  "RESOLUCIÓN NÚMERO 4 DE 2022 DECRETO NÚMERO 5 DE 2023".data

/-- A one-document issue text. -/
def c3text : List Char := "DECRETO NÚMERO 10 DE 2020\nAlgo".data

/-- The records the pipeline core emits for `c3text`. -/
def c3docs : List DocRecord := extract_documents_core c3text []

/-- The single emitted record for `c3text`. -/
def c3rec : DocRecord := c3docs.headD emptyRecord

/-- The single record the full page-level pipeline emits for `c3text`. -/
def c3wrec : DocRecord := (extract_documents [c3text]).headD emptyRecord

/-- A title containing both a DECRETO and a RESOLUCIÓN EJECUTIVA marker. -/
def c6title : List Char :=
  "DECRETO NÚMERO 1 DE 2020 RESOLUCIÓN EJECUTIVA NÚMERO 2 DE 2020".data

/-- A header whose month word is not a Spanish month name. -/
def c8jan : List Char := "Bogotá, D. C., x, 5 de january de 2020".data

/-! ## Helper lemmas -/

theorem containsSub_nil (l : List Char) : containsSub [] l = true := by
  cases l <;> simp [containsSub, List.isPrefixOf]

theorem headD_eq_head (l : List Char) (d : Char) :
    l.headD d = l.head?.getD d := List.headD_eq_head? l d

theorem dropWhile_eq_self_of_head {l : List Char}
    (h : isWs (l.headD ' ') = false) : l.dropWhile isWs = l := by
  cases l with
  | nil => rfl
  | cons c t =>
    rw [List.dropWhile_cons]
    simp only [List.headD] at h
    simp [h]

theorem strip_eq_self {l : List Char} (h1 : isWs (l.headD ' ') = false)
    (h2 : isWs (l.getLastD ' ') = false) : strip l = l := by
  unfold strip
  rw [dropWhile_eq_self_of_head h1]
  have hrev : isWs (l.reverse.headD ' ') = false := by
    rw [headD_eq_head, List.head?_reverse, ← List.getLastD_eq_getLast?]
    exact h2
  rw [dropWhile_eq_self_of_head hrev, List.reverse_reverse]

theorem head?_dropWhile (p : Char → Bool) :
    ∀ (l : List Char) (a : Char), (l.dropWhile p).head? = some a → p a = false := by
  intro l
  induction l with
  | nil => intro a h; simp [List.dropWhile] at h
  | cons c t ih =>
    intro a h
    rw [List.dropWhile_cons] at h
    by_cases hc : p c = true
    · rw [if_pos hc] at h; exact ih a h
    · rw [if_neg hc] at h
      simp only [List.head?_cons, Option.some.injEq] at h
      subst h
      exact Bool.eq_false_iff.mpr hc

theorem getLast?_dropWhile (p : Char → Bool) :
    ∀ l : List Char, l.dropWhile p = [] ∨ (l.dropWhile p).getLast? = l.getLast? := by
  intro l
  induction l with
  | nil => exact Or.inl rfl
  | cons c t ih =>
    rw [List.dropWhile_cons]
    by_cases hc : p c = true
    · rw [if_pos hc]
      rcases ih with h | h
      · exact Or.inl h
      · cases t with
        | nil => exact Or.inl rfl
        | cons b t' => exact Or.inr (by rw [h, List.getLast?_cons_cons])
    · rw [if_neg hc]; exact Or.inr rfl

theorem strip_facts (l : List Char) :
    strip l = [] ∨
    (isWs ((strip l).headD ' ') = false ∧ isWs ((strip l).getLastD ' ') = false) := by
  by_cases hnil : strip l = []
  · exact Or.inl hnil
  · have hBne : (l.dropWhile isWs).reverse.dropWhile isWs ≠ [] := by
      intro h
      apply hnil
      unfold strip
      rw [h]
      rfl
    refine Or.inr ⟨?_, ?_⟩
    · unfold strip
      rw [headD_eq_head, List.head?_reverse]
      rcases getLast?_dropWhile isWs (l.dropWhile isWs).reverse with h | h
      · exact absurd h hBne
      · rw [h, List.getLast?_reverse]
        rcases hhead : (l.dropWhile isWs).head? with _ | a
        · have hAnil : l.dropWhile isWs = [] := by
            cases hll : l.dropWhile isWs with
            | nil => rfl
            | cons x xs => rw [hll] at hhead; simp at hhead
          rw [hAnil] at hBne
          simp at hBne
        · simp only [Option.getD_some]
          exact head?_dropWhile isWs l a hhead
    · unfold strip
      rw [List.getLastD_eq_getLast?, List.getLast?_reverse]
      rcases hhead : ((l.dropWhile isWs).reverse.dropWhile isWs).head? with _ | a
      · have : (l.dropWhile isWs).reverse.dropWhile isWs = [] := by
          cases hll : (l.dropWhile isWs).reverse.dropWhile isWs with
          | nil => rfl
          | cons x xs => rw [hll] at hhead; simp at hhead
        exact absurd this hBne
      · simp only [Option.getD_some]
        exact head?_dropWhile isWs (l.dropWhile isWs).reverse a hhead

theorem strip_idem (l : List Char) : strip (strip l) = strip l := by
  rcases strip_facts l with h | ⟨h1, h2⟩
  · rw [h]; rfl
  · exact strip_eq_self h1 h2

theorem noTrailWs_strip (l : List Char) : noTrailWs (strip l) = true := by
  rcases strip_facts l with h | ⟨_, h2⟩
  · rw [h]; rfl
  · unfold noTrailWs
    cases hgl : (strip l).getLast? with
    | none => rfl
    | some c =>
      rw [List.getLastD_eq_getLast?, hgl] at h2
      simp only [Option.getD_some] at h2
      simp [h2]

/-! ## C9 -/

/-- C9: when the title parse failed so that tipo, numero and anio are all
empty strings, `find_entity_fuzzy` on a non-empty TOC entry list returns
the cleaned institution of the first entry, because the empty string is a
substring of every normalized line and tier 1 fires immediately. -/
theorem C9_empty_triple_first_entry (e : TocEntry) (rest : List TocEntry) :
    find_entity_fuzzy (e :: rest) [] [] [] = clean_entity_name e.entidad := by
  simp [find_entity_fuzzy, normalize_text, List.find?_cons, containsSub_nil]

/-! ## C5 -/

/-- C5: tier ordering of `find_entity_fuzzy` — with one entry whose
normalized line contains the normalized tipo, numero and anio and another
entry whose normalized line contains only the anio, resolution returns the
cleaned institution of the full-match entry in either order of the two
entries. -/
theorem C5_tier_ordering (A B : TocEntry) (tipo numero anio : List Char)
    (hA1 : containsSub (normalize_text tipo) (normalize_text A.linea) = true)
    (hA2 : containsSub (normalize_text numero) (normalize_text A.linea) = true)
    (hA3 : containsSub (normalize_text anio) (normalize_text A.linea) = true)
    (hB1 : containsSub (normalize_text tipo) (normalize_text B.linea) = false)
    (hB2 : containsSub (normalize_text numero) (normalize_text B.linea) = false)
    (hB3 : containsSub (normalize_text anio) (normalize_text B.linea) = true) :
    find_entity_fuzzy [A, B] tipo numero anio = clean_entity_name A.entidad ∧
    find_entity_fuzzy [B, A] tipo numero anio = clean_entity_name A.entidad := by
  constructor <;>
    simp [find_entity_fuzzy, List.find?_cons, hA1, hA2, hA3, hB1, hB2, hB3]

/-- C5 witness at concrete entries. -/
theorem C5_tier_ordering_witness :
    find_entity_fuzzy
      [⟨"MINISTERIO DE HACIENDA".data, "DECRETO NUMERO 9 DE 2020".data⟩,
       ⟨"OTRO ENTE".data, "ALGO 2020".data⟩]
      "DECRETO".data "9".data "2020".data =
      clean_entity_name "MINISTERIO DE HACIENDA".data :=
  (C5_tier_ordering
    ⟨"MINISTERIO DE HACIENDA".data, "DECRETO NUMERO 9 DE 2020".data⟩
    ⟨"OTRO ENTE".data, "ALGO 2020".data⟩
    "DECRETO".data "9".data "2020".data
    (by decide) (by decide) (by decide) (by decide) (by decide) (by decide)).1

/-! ## C3 -/

/-- C3 counterexample: the pipeline emits a record for `c3text`, and the
emitted dict's key set has no `numero` and no `anio` field — only the five
keys of the dict literal. -/
theorem C3_counterexample :
    c3docs.length = 1 ∧
    DocRecord.keys c3rec =
      ["tipo_documento".data, "titulo".data, "descripcion".data,
       "fecha_publicacion".data, "institucion".data] ∧
    "numero".data ∉ DocRecord.keys c3rec ∧
    "anio".data ∉ DocRecord.keys c3rec := by
  refine ⟨by decide, rfl, by decide, by decide⟩

/-- C3 amended: every emitted record carries exactly the five fields
tipo_documento, titulo, descripcion, fecha_publicacion and institucion;
numero and anio are parsed during assembly but are not part of the emitted
record. -/
theorem C3_record_fields (pages : List (List Char)) (r : DocRecord)
    (_hr : r ∈ extract_documents pages) :
    DocRecord.keys r =
      ["tipo_documento".data, "titulo".data, "descripcion".data,
       "fecha_publicacion".data, "institucion".data] ∧
    "numero".data ∉ DocRecord.keys r ∧ "anio".data ∉ DocRecord.keys r :=
  ⟨rfl,
   by
     show "numero".data ∉
       ["tipo_documento".data, "titulo".data, "descripcion".data,
        "fecha_publicacion".data, "institucion".data]
     decide,
   by
     show "anio".data ∉
       ["tipo_documento".data, "titulo".data, "descripcion".data,
        "fecha_publicacion".data, "institucion".data]
     decide⟩

/-- C3 witness: the full pipeline on a one-page issue. -/
theorem C3_record_fields_witness :
    DocRecord.keys c3wrec =
      ["tipo_documento".data, "titulo".data, "descripcion".data,
       "fecha_publicacion".data, "institucion".data] ∧
    "numero".data ∉ DocRecord.keys c3wrec :=
  ⟨(C3_record_fields [c3text] c3wrec (by decide)).1,
   (C3_record_fields [c3text] c3wrec (by decide)).2.1⟩

/-! ## C8 -/

/-- C8 counterexample: a header whose month word is not one of the twelve
Spanish month names still yields a date — the lookup falls back to month
`01` — instead of the empty string the claim requires. -/
theorem C8_counterexample :
    extract_publication_date c8jan = "2020-01-05".data ∧
    alookup month_map ("january".data.map lowc) = none ∧
    extract_publication_date c8jan ≠ [] := by
  refine ⟨by decide, by decide, by decide⟩

/-- C8 amended: publication-date extraction returns the empty string iff
the fixed header idiom does not match; on a match it returns `YYYY-MM-DD`
with the month taken from the case-insensitive 12-entry lookup when the
month word is one of the twelve and `01` otherwise, and the day
zero-padded.  In particular the `jueves, 5 de enero de 2020` header maps
to `2020-01-05` and an absent header to the empty string. -/
theorem C8_date_format (s d m y : List Char) :
    (dateSearch s = none → extract_publication_date s = []) ∧
    (dateSearch s = some (d, m, y) →
      extract_publication_date s =
        y ++ '-' :: ((alookup month_map (m.map lowc)).getD "01".data) ++
        '-' :: zfill2 d) ∧
    extract_publication_date
      "Bogotá, D. C., jueves, 5 de enero de 2020".data = "2020-01-05".data ∧
    extract_publication_date "sin encabezado".data = [] := by
  refine ⟨?_, ?_, by decide, by decide⟩
  · intro h; simp [extract_publication_date, h]
  · intro h; simp [extract_publication_date, h]

/-- C8 witness: the enero header through the amended theorem. -/
theorem C8_date_format_witness :
    extract_publication_date
      "Bogotá, D. C., jueves, 5 de enero de 2020".data =
      "2020".data ++ '-' ::
        ((alookup month_map ("enero".data.map lowc)).getD "01".data) ++
        '-' :: zfill2 "5".data :=
  (C8_date_format "Bogotá, D. C., jueves, 5 de enero de 2020".data
    "5".data "enero".data "2020".data).2.1 (by decide)

/-! ## C6 -/

/-- C6 counterexample: a title containing a RESOLUCIÓN EJECUTIVA marker
classifies as DECRETO when a DECRETO marker also occurs, because DECRETO
is checked first — refuting the claim that every title containing the
RESOLUCIÓN EJECUTIVA idiom classifies as RESOLUCIÓN EJECUTIVA. -/
theorem C6_counterexample :
    identify_document_type c6title = "DECRETO".data ∧
    hasPat resEjStrict (c6title.map upc) = true ∧
    identify_document_type c6title ≠ "RESOLUCIÓN EJECUTIVA".data := by
  refine ⟨by decide, by decide, by decide⟩

/-- C6 amended: classification is the ordered waterfall on the upper-cased
title — when no DECRETO pattern occurs, a title containing the RESOLUCIÓN
EJECUTIVA idiom classifies as RESOLUCIÓN EJECUTIVA (never RESOLUCIÓN),
a title matching none of the five structural patterns classifies as OTRO,
and the result is always one of the six enumeration values. -/
theorem C6_type_waterfall (title : List Char) :
    (hasPat decStrict (title.map upc) = false →
      hasPat resEjStrict (title.map upc) = true →
      identify_document_type title = "RESOLUCIÓN EJECUTIVA".data ∧
      identify_document_type title ≠ "RESOLUCIÓN".data) ∧
    (hasPat decStrict (title.map upc) = false →
      hasPat resEjStrict (title.map upc) = false →
      hasPat resStrict (title.map upc) = false →
      hasPat circStrict (title.map upc) = false →
      hasPat acuStrict (title.map upc) = false →
      identify_document_type title = "OTRO".data) ∧
    identify_document_type title ∈ sixTypes := by
  refine ⟨?_, ?_, ?_⟩
  · intro h1 h2
    constructor
    · simp [identify_document_type, h1, h2]
    · simp [identify_document_type, h1, h2]
  · intro h1 h2 h3 h4 h5
    simp [identify_document_type, h1, h2, h3, h4, h5]
  · simp only [identify_document_type, sixTypes]
    split_ifs <;> simp

/-- C6 witness: a mixed-case executive-resolution title. -/
theorem C6_type_waterfall_witness :
    identify_document_type "Resolución Ejecutiva Número 3 de 2021".data =
      "RESOLUCIÓN EJECUTIVA".data :=
  (((C6_type_waterfall "Resolución Ejecutiva Número 3 de 2021".data).1
    (by decide) (by decide))).1

/-! ## C4 -/

theorem splitLines_no_nl {b : List Char} (h : '\n' ∉ b) : splitLines b = [b] := by
  induction b with
  | nil => rfl
  | cons c t ih =>
    have hc : ¬c = '\n' := fun e => h (e ▸ List.mem_cons_self c t)
    have ht : '\n' ∉ t := fun m => h (List.mem_cons_of_mem _ m)
    simp [splitLines, hc, ih ht]

theorem splitLines_append {a : List Char} (b : List Char) (h : '\n' ∉ a) :
    splitLines (a ++ '\n' :: b) = a :: splitLines b := by
  induction a with
  | nil => simp [splitLines]
  | cons c t ih =>
    have hc : ¬c = '\n' := fun e => h (e ▸ List.mem_cons_self c t)
    have ht : '\n' ∉ t := fun m => h (List.mem_cons_of_mem _ m)
    simp only [List.cons_append, splitLines, hc, if_false, List.append_eq]
    rw [ih ht]

/-- C4 counterexample: the hyphen is removed but the two fragments are
joined with a space — two tokens, not one reassembled token. -/
theorem C4_counterexample :
    process_two_column_text "exam-\nple".data = "exam ple".data ∧
    containsSub "example".data (process_two_column_text "exam-\nple".data) =
      false := by
  refine ⟨by decide, by decide⟩

/-- C4 amended: for a line ending in a hyphen followed by a non-empty line
(both already stripped, newline-free, the second not itself
hyphen-terminated), the reflow emits one line consisting of the first
fragment, a single space, and the second fragment — the hyphen is removed
but the fragments stay space-separated. -/
theorem C4_hyphen_join (a b : List Char)
    (ha1 : isWs (a.headD ' ') = false) (ha2 : isWs (a.getLastD ' ') = false)
    (ha3 : '\n' ∉ a)
    (hb1 : isWs (b.headD ' ') = false) (hb2 : isWs (b.getLastD ' ') = false)
    (hb3 : '\n' ∉ b) (hb4 : b.getLastD ' ' ≠ '-') :
    process_two_column_text (a ++ '-' :: '\n' :: b) = a ++ ' ' :: b := by
  have hane : a ≠ [] := by
    intro h; rw [h] at ha1; exact absurd ha1 (by decide)
  have hbne : b ≠ [] := by
    intro h; rw [h] at hb1; exact absurd hb1 (by decide)
  have hsplit : splitLines (a ++ '-' :: '\n' :: b) = (a ++ ['-']) :: [b] := by
    have harr : a ++ '-' :: '\n' :: b = (a ++ ['-']) ++ '\n' :: b := by simp
    have hnl : '\n' ∉ a ++ ['-'] := by
      intro hm
      rcases List.mem_append.mp hm with hm | hm
      · exact ha3 hm
      · simp at hm
    rw [harr, splitLines_append b hnl, splitLines_no_nl hb3]
  have hstrip1 : strip (a ++ ['-']) = a ++ ['-'] := by
    refine strip_eq_self ?_ ?_
    · rcases a with _ | ⟨c, t⟩
      · exact absurd rfl hane
      · exact ha1
    · rw [List.getLastD_concat]; decide
  have hstripb : strip b = b := strip_eq_self hb1 hb2
  have e1 : (a ++ ['-']).isEmpty = false := by
    rcases a with _ | ⟨c, t⟩ <;> rfl
  have e2 : endsHyphen (a ++ ['-']) = true := by
    simp [endsHyphen, List.getLastD_concat]
  have e3 : b.isEmpty = false := by
    rcases b with _ | ⟨c, t⟩
    · exact absurd rfl hbne
    · rfl
  have e4 : endsHyphen b = false := by
    unfold endsHyphen
    exact decide_eq_false hb4
  unfold process_two_column_text
  rw [hsplit]
  simp only [ptctLoop, hstrip1, hstripb, e1, e2, e3, e4, List.dropLast_concat,
    Bool.false_eq_true, if_false, if_true, List.nil_append, List.isEmpty_nil]
  simp [joinSpace, joinNl]

/-- C4 witness at the `exam-` / `ple` fragments. -/
theorem C4_hyphen_join_witness :
    process_two_column_text ("exam".data ++ '-' :: '\n' :: "ple".data) =
      "exam".data ++ ' ' :: "ple".data :=
  C4_hyphen_join "exam".data "ple".data (by decide) (by decide) (by decide)
    (by decide) (by decide) (by decide) (by decide)

/-! ## C10 -/

theorem tocScan_props (ls : List (List Char)) :
    ∀ cur, (∀ c, cur = some c → entityMatch c = true ∧ c ≠ []) →
      ∀ e ∈ tocScan ls cur, entityMatch e.entidad = true ∧ e.entidad ≠ [] := by
  induction ls with
  | nil => intro cur _ e he; simp [tocScan] at he
  | cons l rest ih =>
    intro cur hcur e he
    simp only [tocScan] at he
    split_ifs at he with h1 h2
    · exact ih cur hcur e he
    · refine ih _ ?_ e he
      intro c hc
      injection hc with hc'
      subst hc'
      rw [strip_idem]
      refine ⟨h2, ?_⟩
      intro hnil
      rw [hnil] at h2
      exact absurd h2 (by decide)
    · cases hc : cur with
      | none => rw [hc] at he; exact ih none (by simp) e he
      | some c0 =>
        rw [hc] at he
        rcases List.mem_cons.mp he with h | h
        · subst h
          exact hcur c0 hc
        · refine ih (some c0) ?_ e h
          intro c hcc
          injection hcc with h'
          rw [← h']
          exact hcur c0 hc

theorem tocScan_no_heading (ls : List (List Char)) :
    (∀ l ∈ ls, entityMatch (strip l) = false) → tocScan ls none = [] := by
  induction ls with
  | nil => intro _; rfl
  | cons l rest ih =>
    intro h
    have hl := h l (List.mem_cons_self _ _)
    have hrest : ∀ x ∈ rest, entityMatch (strip x) = false :=
      fun x hx => h x (List.mem_cons_of_mem _ hx)
    simp only [tocScan, hl, Bool.false_eq_true, if_false]
    split_ifs <;> exact ih hrest

theorem tocScan_dropWhile (ls : List (List Char)) :
    tocScan ls none =
      tocScan (ls.dropWhile (fun l => !entityMatch (strip l))) none := by
  induction ls with
  | nil => rfl
  | cons l rest ih =>
    rw [List.dropWhile_cons]
    by_cases he : entityMatch (strip l) = true
    · simp [he]
    · have he' : entityMatch (strip l) = false := Bool.eq_false_iff.mpr he
      simp only [he', Bool.not_false, if_true]
      rw [← ih]
      simp only [tocScan, he', Bool.false_eq_true, if_false]
      split_ifs <;> rfl

/-- C10: every table-of-contents entry carries a non-empty institution
heading matching the anchored institution pattern; lines before the first
heading never become entries (dropping them changes nothing), and a region
without any heading yields an empty entry list. -/
theorem C10_toc_entries (lines : List (List Char)) :
    (∀ e ∈ extract_table_of_contents lines,
      entityMatch e.entidad = true ∧ e.entidad ≠ []) ∧
    ((∀ l ∈ tocRegion lines, entityMatch (strip l) = false) →
      extract_table_of_contents lines = []) ∧
    extract_table_of_contents lines =
      tocScan ((tocRegion lines).dropWhile (fun l => !entityMatch (strip l)))
        none := by
  refine ⟨?_, ?_, ?_⟩
  · exact tocScan_props (tocRegion lines) none (by simp)
  · intro h; exact tocScan_no_heading _ h
  · exact tocScan_dropWhile _

/-- C10 witness: a region with no institution heading yields no entries. -/
theorem C10_toc_entries_witness :
    extract_table_of_contents ["C o n t e n i d o".data, "ruido x".data] = [] :=
  (C10_toc_entries ["C o n t e n i d o".data, "ruido x".data]).2.1 (by decide)

/-! ## Search and count lemmas for the boundary scan -/

theorem searchPos_none_all (m : List Char → Bool) :
    ∀ (s : List Char), searchPos m s = none → ∀ j, m (s.drop j) = false := by
  intro s
  induction s with
  | nil =>
    intro h j
    rw [List.drop_nil]
    by_cases hm : m [] = true
    · rw [searchPos, if_pos hm] at h; exact absurd h (by simp)
    · exact Bool.eq_false_iff.mpr hm
  | cons c t ih =>
    intro h j
    simp only [searchPos] at h
    by_cases hm : m (c :: t) = true
    · rw [if_pos hm] at h; exact absurd h (by simp)
    · rw [if_neg hm] at h
      have ht : searchPos m t = none := by
        cases hst : searchPos m t with
        | none => rfl
        | some r => rw [hst] at h; simp at h
      cases j with
      | zero => rw [List.drop_zero]; exact Bool.eq_false_iff.mpr hm
      | succ j' => rw [List.drop_succ_cons]; exact ih ht j'

theorem searchPos_some_match (m : List Char → Bool) :
    ∀ (s : List Char) (r : Nat), searchPos m s = some r →
      m (s.drop r) = true := by
  intro s
  induction s with
  | nil =>
    intro r h
    by_cases hm : m [] = true
    · rw [searchPos, if_pos hm] at h
      injection h with h'
      subst h'
      simpa using hm
    · rw [searchPos, if_neg hm] at h; exact absurd h (by simp)
  | cons c t ih =>
    intro r h
    simp only [searchPos] at h
    by_cases hm : m (c :: t) = true
    · rw [if_pos hm] at h
      injection h with h'
      subst h'
      simpa using hm
    · rw [if_neg hm] at h
      cases hst : searchPos m t with
      | none => rw [hst] at h; simp at h
      | some r' =>
        rw [hst] at h
        simp only [Option.map_some', Option.some.injEq] at h
        subst h
        rw [List.drop_succ_cons]
        exact ih r' hst

theorem searchPos_some_min (m : List Char → Bool) :
    ∀ (s : List Char) (r : Nat), searchPos m s = some r →
      ∀ j, j < r → m (s.drop j) = false := by
  intro s
  induction s with
  | nil =>
    intro r h j hj
    by_cases hm : m [] = true
    · rw [searchPos, if_pos hm] at h
      injection h with h'
      omega
    · rw [searchPos, if_neg hm] at h; exact absurd h (by simp)
  | cons c t ih =>
    intro r h j hj
    simp only [searchPos] at h
    by_cases hm : m (c :: t) = true
    · rw [if_pos hm] at h
      injection h with h'
      omega
    · rw [if_neg hm] at h
      cases hst : searchPos m t with
      | none => rw [hst] at h; simp at h
      | some r' =>
        rw [hst] at h
        simp only [Option.map_some', Option.some.injEq] at h
        subst h
        cases j with
        | zero => rw [List.drop_zero]; exact Bool.eq_false_iff.mpr hm
        | succ j' =>
          rw [List.drop_succ_cons]
          exact ih r' hst j' (by omega)

theorem searchPos_of_head (m : List Char → Bool) (s : List Char)
    (h : m s = true) : searchPos m s = some 0 := by
  cases s <;> simp [searchPos, h]

theorem searchPos_nil_none (m : List Char → Bool) (hm : m [] = false) :
    searchPos m [] = none := by
  simp [searchPos, hm]

theorem matchCount_zero_of_none (m : List Char → Bool) :
    ∀ s : List Char, (∀ j, m (s.drop j) = false) → matchCount m s = 0 := by
  intro s
  induction s with
  | nil => intro _; rfl
  | cons c t ih =>
    intro h
    have h0 := h 0
    rw [List.drop_zero] at h0
    have ht : ∀ j, m (t.drop j) = false := by
      intro j
      have := h (j + 1)
      rwa [List.drop_succ_cons] at this
    simp only [matchCount, h0, Bool.false_eq_true, if_false, Nat.zero_add]
    exact ih ht

theorem matchCount_split (m : List Char → Bool) (hnil : m [] = false) :
    ∀ (s : List Char) (r : Nat), searchPos m s = some r →
      matchCount m s = 1 + matchCount m (s.drop (r + 1)) := by
  intro s
  induction s with
  | nil =>
    intro r h
    rw [searchPos, if_neg (by simp [hnil])] at h
    exact absurd h (by simp)
  | cons c t ih =>
    intro r h
    simp only [searchPos] at h
    by_cases hm : m (c :: t) = true
    · rw [if_pos hm] at h
      injection h with h'
      subst h'
      simp only [matchCount, hm, if_true, List.drop_succ_cons, List.drop_zero]
    · rw [if_neg hm] at h
      cases hst : searchPos m t with
      | none => rw [hst] at h; simp at h
      | some r' =>
        rw [hst] at h
        simp only [Option.map_some', Option.some.injEq] at h
        subst h
        simp only [matchCount, hm, Bool.false_eq_true, if_false, Nat.zero_add,
          List.drop_succ_cons]
        exact ih r' hst

theorem matchCount_drop_of_lt (m : List Char → Bool) :
    ∀ (k : Nat) (s : List Char), (∀ j, j < k → m (s.drop j) = false) →
      matchCount m s = matchCount m (s.drop k) := by
  intro k
  induction k with
  | zero => intro s _; rw [List.drop_zero]
  | succ k' ih =>
    intro s h
    cases s with
    | nil => simp [matchCount]
    | cons c t =>
      have h0 : m (c :: t) = false := by
        have := h 0 (Nat.succ_pos k')
        rwa [List.drop_zero] at this
      rw [List.drop_succ_cons]
      rw [← ih t (fun j hj => by
        have := h (j + 1) (Nat.succ_lt_succ hj)
        rwa [List.drop_succ_cons] at this)]
      simp only [matchCount, h0, Bool.false_eq_true, if_false, Nat.zero_add]

theorem ciMatch_drop_false_of_ge {s : List Char} {i : Nat}
    (h : s.length ≤ i) : ciMatch (s.drop i) = false := by
  rw [List.drop_eq_nil_iff.mpr h]
  decide

/-! ## C1 -/

theorem scanSpansAux_length (s : List Char)
    (H : ∀ i, i < s.length → ciMatch (s.drop i) = true →
      csMatch (s.drop i) = true) :
    ∀ (fuel c : Nat), s.length + 1 - c ≤ fuel →
      (scanSpansAux s fuel c).length = matchCount ciMatch (s.drop c) := by
  intro fuel
  induction fuel with
  | zero =>
    intro c hcfuel
    have hdrop : s.drop c = [] := List.drop_eq_nil_iff.mpr (by omega)
    simp [scanSpansAux, hdrop, matchCount]
  | succ fuel ih =>
    intro c hcfuel
    cases hsp : searchPos ciMatch (s.drop c) with
    | none =>
      simp only [scanSpansAux, hsp]
      rw [matchCount_zero_of_none ciMatch _ (searchPos_none_all ciMatch _ hsp)]
      rfl
    | some rel =>
      simp only [scanSpansAux, hsp]
      have hciP : ciMatch (s.drop (c + rel)) = true := by
        have := searchPos_some_match ciMatch (s.drop c) rel hsp
        rwa [List.drop_drop] at this
      have hPlt : c + rel < s.length := by
        by_contra hge
        rw [ciMatch_drop_false_of_ge (by omega)] at hciP
        exact absurd hciP (by simp)
      have hmc0 : matchCount ciMatch (s.drop c) =
          1 + matchCount ciMatch (s.drop (c + rel + 1)) := by
        rw [matchCount_split ciMatch (by decide) _ rel hsp, List.drop_drop]
        rw [show c + (rel + 1) = c + rel + 1 by omega]
      cases hedc : searchPos csMatch (s.drop (c + rel + 1)) with
      | none =>
        have hnxt : (extract_document_content s (c + rel)).2 = s.length := by
          simp [extract_document_content, hedc]
        have hnocs := searchPos_none_all csMatch _ hedc
        have hgap : ∀ j, j < s.length - (c + rel + 1) →
            ciMatch ((s.drop (c + rel + 1)).drop j) = false := by
          intro j _
          rw [List.drop_drop]
          by_cases hge : s.length ≤ c + rel + 1 + j
          · exact ciMatch_drop_false_of_ge hge
          · by_cases hci : ciMatch (s.drop (c + rel + 1 + j)) = true
            · have hcs := H (c + rel + 1 + j) (by omega) hci
              have := hnocs j
              rw [List.drop_drop] at this
              rw [this] at hcs
              exact absurd hcs (by simp)
            · exact Bool.eq_false_iff.mpr hci
        have hmc1 : matchCount ciMatch (s.drop (c + rel + 1)) =
            matchCount ciMatch (s.drop s.length) := by
          rw [matchCount_drop_of_lt ciMatch (s.length - (c + rel + 1)) _ hgap,
            List.drop_drop]
          rw [show c + rel + 1 + (s.length - (c + rel + 1)) = s.length by omega]
        have hfuel' : s.length + 1 - s.length ≤ fuel := by omega
        rw [hnxt, List.length_cons, ih s.length hfuel', hmc0, hmc1]
        omega
      | some r =>
        have hnxt : (extract_document_content s (c + rel)).2 = c + rel + 1 + r := by
          simp [extract_document_content, hedc]
        have hmin := searchPos_some_min csMatch _ r hedc
        have hgap : ∀ j, j < (c + rel + 1 + r) - (c + rel + 1) →
            ciMatch ((s.drop (c + rel + 1)).drop j) = false := by
          intro j hj
          rw [List.drop_drop]
          by_cases hge : s.length ≤ c + rel + 1 + j
          · exact ciMatch_drop_false_of_ge hge
          · by_cases hci : ciMatch (s.drop (c + rel + 1 + j)) = true
            · have hcs := H (c + rel + 1 + j) (by omega) hci
              have := hmin j (by omega)
              rw [List.drop_drop] at this
              rw [this] at hcs
              exact absurd hcs (by simp)
            · exact Bool.eq_false_iff.mpr hci
        have hmc1 : matchCount ciMatch (s.drop (c + rel + 1)) =
            matchCount ciMatch (s.drop (c + rel + 1 + r)) := by
          rw [matchCount_drop_of_lt ciMatch ((c + rel + 1 + r) - (c + rel + 1)) _
            hgap, List.drop_drop]
          rw [show c + rel + 1 + ((c + rel + 1 + r) - (c + rel + 1)) =
            c + rel + 1 + r by omega]
        have hfuel' : s.length + 1 - (c + rel + 1 + r) ≤ fuel := by omega
        rw [hnxt, List.length_cons, ih (c + rel + 1 + r) hfuel', hmc0, hmc1]
        omega

/-- C1 counterexample: `c1text` contains two boundary-marker occurrences in
the case-insensitive accent-lax sense (the second lower-case with NUMERO),
yet only one document record is emitted, because span termination only
recognises the canonical case-sensitive accented form. -/
theorem C1_counterexample :
    matchCount ciMatch c1text = 2 ∧
    (extract_documents_core c1text []).length = 1 := by
  refine ⟨by decide, by decide⟩

/-- C1 amended: when every position matched by the case-insensitive
boundary patterns is also matched by the case-sensitive termination
patterns (all markers in canonical form), `extract_documents` emits
exactly one record per marker occurrence, and a text with zero marker
occurrences yields the empty list. -/
theorem C1_marker_count (s : List Char) (toc : List TocEntry)
    (H : ∀ i, i < s.length → ciMatch (s.drop i) = true →
      csMatch (s.drop i) = true) :
    (extract_documents_core s toc).length = matchCount ciMatch s ∧
    (matchCount ciMatch s = 0 → extract_documents_core s toc = []) := by
  have h := scanSpansAux_length s H (s.length + 1) 0 (by omega)
  rw [List.drop_zero] at h
  have hlen : (extract_documents_core s toc).length = matchCount ciMatch s := by
    rw [extract_documents_core, List.length_map]
    exact h
  refine ⟨hlen, ?_⟩
  intro h0
  have : (extract_documents_core s toc).length = 0 := by omega
  exact List.length_eq_zero.mp this

/-- C1 witness at a two-marker canonical text. -/
theorem C1_marker_count_witness :
    (extract_documents_core c1wtext []).length = matchCount ciMatch c1wtext :=
  (C1_marker_count c1wtext [] (by decide)).1

/-! ## C2 -/

theorem scanSpansAux_spans (s : List Char)
    (H2 : ∀ i, i < s.length → csMatch (s.drop i) = true →
      ciMatch (s.drop i) = true) :
    ∀ (fuel c : Nat), s.length + 1 - c ≤ fuel →
      contiguous (scanSpansAux s fuel c) = true ∧
      (∀ x, (scanSpansAux s fuel c).getLast? = some x → x.2 = s.length) ∧
      (∀ sp ∈ scanSpansAux s fuel c, sp.1 < sp.2 ∧ sp.2 ≤ s.length ∧
        ∀ r, searchPos ciMatch (s.drop c) = some r → c + r ≤ sp.1) := by
  intro fuel
  induction fuel with
  | zero =>
    intro c hcfuel
    refine ⟨rfl, by simp [scanSpansAux], by simp [scanSpansAux]⟩
  | succ fuel ih =>
    intro c hcfuel
    cases hsp : searchPos ciMatch (s.drop c) with
    | none =>
      simp only [scanSpansAux, hsp]
      exact ⟨rfl, by simp, by simp⟩
    | some rel =>
      simp only [scanSpansAux, hsp]
      have hciP : ciMatch (s.drop (c + rel)) = true := by
        have := searchPos_some_match ciMatch (s.drop c) rel hsp
        rwa [List.drop_drop] at this
      have hPlt : c + rel < s.length := by
        by_contra hge
        rw [ciMatch_drop_false_of_ge (by omega)] at hciP
        exact absurd hciP (by simp)
      cases hedc : searchPos csMatch (s.drop (c + rel + 1)) with
      | none =>
        have hnxt : (extract_document_content s (c + rel)).2 = s.length := by
          simp [extract_document_content, hedc]
        have hrest : scanSpansAux s fuel s.length = [] := by
          cases fuel with
          | zero => rfl
          | succ f =>
            simp only [scanSpansAux, List.drop_length,
              searchPos_nil_none ciMatch (by decide)]
        rw [hnxt, hrest]
        refine ⟨rfl, ?_, ?_⟩
        · intro x hx
          simp only [List.getLast?_singleton, Option.some.injEq] at hx
          rw [← hx]
        · intro sp hsp2
          simp only [List.mem_singleton] at hsp2
          subst hsp2
          refine ⟨by omega, by omega, ?_⟩
          intro r hr
          injection hr with hr'
          omega
      | some r =>
        have hnxt : (extract_document_content s (c + rel)).2 = c + rel + 1 + r := by
          simp [extract_document_content, hedc]
        have hcsn : csMatch (s.drop (c + rel + 1 + r)) = true := by
          have := searchPos_some_match csMatch _ r hedc
          rwa [List.drop_drop] at this
        have hnlt : c + rel + 1 + r < s.length := by
          by_contra hge
          rw [List.drop_eq_nil_iff.mpr (by omega)] at hcsn
          exact absurd hcsn (by decide)
        have hcin : ciMatch (s.drop (c + rel + 1 + r)) = true :=
          H2 _ hnlt hcsn
        have hnext : searchPos ciMatch (s.drop (c + rel + 1 + r)) = some 0 :=
          searchPos_of_head _ _ hcin
        have hfuel' : s.length + 1 - (c + rel + 1 + r) ≤ fuel := by omega
        obtain ⟨ihc, ihl, ihm⟩ := ih (c + rel + 1 + r) hfuel'
        obtain ⟨fuel', rfl⟩ : ∃ f', fuel = f' + 1 := ⟨fuel - 1, by omega⟩
        have hrestform : scanSpansAux s (fuel' + 1) (c + rel + 1 + r) =
            (c + rel + 1 + r, (extract_document_content s (c + rel + 1 + r)).2) ::
            scanSpansAux s fuel' (extract_document_content s (c + rel + 1 + r)).2 := by
          simp only [scanSpansAux, hnext, Nat.add_zero]
        rw [hnxt]
        refine ⟨?_, ?_, ?_⟩
        · rw [hrestform]
          simp only [contiguous, beq_self_eq_true, Bool.true_and]
          rw [← hrestform]
          exact ihc
        · intro x hx
          rw [hrestform] at hx
          rw [List.getLast?_cons_cons] at hx
          rw [← hrestform] at hx
          exact ihl x hx
        · intro sp hsp2
          rcases List.mem_cons.mp hsp2 with h | h
          · subst h
            refine ⟨by omega, by omega, ?_⟩
            intro r0 hr0
            injection hr0 with hr0'
            omega
          · obtain ⟨hlt, hle, hmin⟩ := ihm sp h
            refine ⟨hlt, hle, ?_⟩
            intro r0 hr0
            injection hr0 with hr0'
            subst hr0'
            have := hmin 0 hnext
            omega

/-- C2 counterexample: the second marker of `c2text` (two spaces inside
RESOLUCIÓN  EJECUTIVA) is recognised by the case-sensitive termination
patterns but not by the case-insensitive start patterns, so the scan stops:
the only span ends at 27 while the text has length 65 — the final span's
end does not equal the text length and the tail is covered by no span. -/
theorem C2_counterexample :
    scanSpans c2text = [(0, 27)] ∧ c2text.length = 65 ∧
    csMatch (c2text.drop 27) = true := by
  refine ⟨by decide, by decide, by decide⟩

/-- C2 amended: when every position matched by the case-sensitive
termination patterns is also matched by the case-insensitive start
patterns, the spans are contiguous (each span's end is the next span's
start), the final span ends at the text length, every span is non-empty
and bounded by the text length, and no span starts before the first
boundary marker — so the preamble belongs to no span. -/
theorem C2_span_invariants (s : List Char)
    (H2 : ∀ i, i < s.length → csMatch (s.drop i) = true →
      ciMatch (s.drop i) = true) :
    contiguous (scanSpans s) = true ∧
    (∀ x, (scanSpans s).getLast? = some x → x.2 = s.length) ∧
    (∀ sp ∈ scanSpans s, sp.1 < sp.2 ∧ sp.2 ≤ s.length ∧
      ∀ r, searchPos ciMatch s = some r → r ≤ sp.1) := by
  obtain ⟨h1, h2, h3⟩ := scanSpansAux_spans s H2 (s.length + 1) 0 (by omega)
  refine ⟨h1, h2, ?_⟩
  intro sp hsp
  obtain ⟨ha, hb, hc⟩ := h3 sp hsp
  refine ⟨ha, hb, ?_⟩
  intro r hr
  have := hc r (by rwa [List.drop_zero])
  omega

/-- C2 witness at a two-marker canonical text. -/
theorem C2_span_invariants_witness :
    contiguous (scanSpans c2wtext) = true :=
  (C2_span_invariants c2wtext (by decide)).1

/-! ## Suffix and append lemmas for the title-pattern extension -/

theorem noTrailWs_of_suffix {l₁ l₂ : List Char} (h : l₁ <:+ l₂)
    (h2 : noTrailWs l₂ = true) : noTrailWs l₁ = true := by
  obtain ⟨p, hp⟩ := h
  subst hp
  unfold noTrailWs at h2 ⊢
  cases hgl : l₁.getLast? with
  | none => rfl
  | some x =>
    have hx : (p ++ l₁).getLast? = some x := by
      rw [List.getLast?_append, hgl]
      rfl
    rw [hx] at h2
    exact h2

theorem noTrailWs_cons_tail {a : Char} {l : List Char}
    (h : noTrailWs (a :: l) = true) : noTrailWs l = true :=
  noTrailWs_of_suffix ⟨[a], rfl⟩ h

theorem noTrailWs_dropWhile (p : Char → Bool) {u : List Char}
    (h : noTrailWs u = true) : noTrailWs (u.dropWhile p) = true :=
  noTrailWs_of_suffix (List.dropWhile_suffix p) h

theorem noTrailWs_drop (n : Nat) {u : List Char}
    (h : noTrailWs u = true) : noTrailWs (u.drop n) = true :=
  noTrailWs_of_suffix (List.drop_suffix n u) h

theorem dropWhile_ne_nil_of_noTrailWs {u : List Char} (hne : u ≠ [])
    (h : noTrailWs u = true) : u.dropWhile isWs ≠ [] := by
  intro hd
  have hall := List.dropWhile_eq_nil_iff.mp hd
  have hwl : isWs (u.getLast hne) = true := hall _ (List.getLast_mem hne)
  unfold noTrailWs at h
  rw [List.getLast?_eq_getLast u hne] at h
  simp [hwl] at h

theorem takeWhile_append_not (p : Char → Bool) {c : Char} (hc : p c = false)
    (u w : List Char) : (u ++ c :: w).takeWhile p = u.takeWhile p := by
  induction u with
  | nil => simp [List.takeWhile_cons, hc]
  | cons a u' ih =>
    rw [List.cons_append, List.takeWhile_cons, List.takeWhile_cons]
    by_cases ha : p a = true
    · rw [if_pos ha, if_pos ha, ih]
    · rw [if_neg ha, if_neg ha]

theorem dropWhile_append_not (p : Char → Bool) {c : Char} (hc : p c = false)
    (u w : List Char) : (u ++ c :: w).dropWhile p = u.dropWhile p ++ c :: w := by
  induction u with
  | nil => simp [List.dropWhile_cons, hc]
  | cons a u' ih =>
    rw [List.cons_append, List.dropWhile_cons, List.dropWhile_cons]
    by_cases ha : p a = true
    · rw [if_pos ha, if_pos ha, ih]
    · rw [if_neg ha, if_neg ha, List.cons_append]

theorem takeWhile_append_stop (p : Char → Bool) (u w : List Char)
    (h : u.dropWhile p ≠ []) : (u ++ w).takeWhile p = u.takeWhile p := by
  induction u with
  | nil => exact absurd rfl h
  | cons a u' ih =>
    rw [List.cons_append, List.takeWhile_cons, List.takeWhile_cons]
    by_cases ha : p a = true
    · rw [if_pos ha, if_pos ha]
      rw [List.dropWhile_cons, if_pos ha] at h
      rw [ih h]
    · rw [if_neg ha, if_neg ha]

theorem dropWhile_append_stop (p : Char → Bool) (u w : List Char)
    (h : u.dropWhile p ≠ []) : (u ++ w).dropWhile p = u.dropWhile p ++ w := by
  induction u with
  | nil => exact absurd rfl h
  | cons a u' ih =>
    rw [List.cons_append, List.dropWhile_cons, List.dropWhile_cons]
    by_cases ha : p a = true
    · rw [if_pos ha, if_pos ha]
      rw [List.dropWhile_cons, if_pos ha] at h
      rw [ih h]
    · rw [if_neg ha, if_neg ha, List.cons_append]

/-! ## C7: the appended date line cannot change the anchored title match -/

theorem runToks_append_paren (ci : Bool) (ds : List Char) :
    ∀ ts : List RTok, benign ci ts = true →
    ∀ u : List Char, noTrailWs u = true →
      runToks ci ts (u ++ '\n' :: '(' :: ds) = runToks ci ts u := by
  intro ts
  induction ts with
  | nil => intro _ u _; rfl
  | cons tok ts ih =>
    intro hb u hu
    cases tok with
    | lit c =>
      simp only [benign, Bool.and_eq_true, Bool.not_eq_true'] at hb
      obtain ⟨⟨hn, hp⟩, hbts⟩ := hb
      cases u with
      | nil => simp [runToks, hn]
      | cons a u' =>
        simp only [List.cons_append, runToks]
        by_cases hac : cmpc ci a c = true
        · rw [if_pos hac, if_pos hac]
          exact ih hbts u' (noTrailWs_cons_tail hu)
        · rw [if_neg hac, if_neg hac]
    | cls cs =>
      simp only [benign, Bool.and_eq_true, List.all_eq_true,
        Bool.not_eq_true'] at hb
      obtain ⟨hcs, hbts⟩ := hb
      cases u with
      | nil =>
        have hn : cs.any (fun c0 => cmpc ci '\n' c0) = false := by
          rw [List.any_eq_false]
          intro x hx
          simp [(hcs x hx).1]
        simp [runToks, hn]
      | cons a u' =>
        simp only [List.cons_append, runToks]
        by_cases hac : cs.any (fun c0 => cmpc ci a c0) = true
        · rw [if_pos hac, if_pos hac]
          exact ih hbts u' (noTrailWs_cons_tail hu)
        · rw [if_neg hac, if_neg hac]
    | ws1 =>
      cases ts with
      | nil => simp [benign] at hb
      | cons t ts' =>
        simp only [benign, Bool.and_eq_true] at hb
        obtain ⟨hrej, hbts⟩ := hb
        by_cases hu0 : u = []
        · subst hu0
          simp only [List.nil_append, runToks]
          have htw : ('\n' :: '(' :: ds).takeWhile isWs = ['\n'] := by
            rw [List.takeWhile_cons, if_pos (by decide), List.takeWhile_cons,
              if_neg (by decide)]
          have hdw : ('\n' :: '(' :: ds).dropWhile isWs = '(' :: ds := by
            rw [List.dropWhile_cons, if_pos (by decide), List.dropWhile_cons,
              if_neg (by decide)]
          rw [htw, hdw]
          simp only [List.takeWhile_nil, List.isEmpty_nil, if_true,
            List.isEmpty_cons, Bool.false_eq_true, if_false]
          cases t with
          | lit c =>
            simp only [rejectsOpenParen, Bool.not_eq_true'] at hrej
            simp [runToks, hrej]
          | cls cs =>
            simp only [rejectsOpenParen, Bool.not_eq_true'] at hrej
            simp [runToks, hrej]
          | dplus => simp [runToks]
          | d4 => simp [runToks, List.take_succ_cons]
          | ws1 => simp [rejectsOpenParen] at hrej
          | ws0 => simp [rejectsOpenParen] at hrej
          | alpha1 => simp [rejectsOpenParen] at hrej
          | nplus cs => simp [rejectsOpenParen] at hrej
          | d12 => simp [rejectsOpenParen] at hrej
        · have hne := dropWhile_ne_nil_of_noTrailWs hu0 hu
          simp only [runToks]
          rw [takeWhile_append_stop isWs u _ hne, dropWhile_append_stop isWs u _ hne]
          by_cases hemp : (u.takeWhile isWs).isEmpty = true
          · rw [if_pos hemp, if_pos hemp]
          · rw [if_neg hemp, if_neg hemp]
            exact ih hbts (u.dropWhile isWs) (noTrailWs_dropWhile _ hu)
    | ws0 => simp [benign] at hb
    | dplus =>
      have hbts : benign ci ts = true := hb
      simp only [runToks]
      rw [takeWhile_append_not Char.isDigit (by decide) u ('(' :: ds),
        dropWhile_append_not Char.isDigit (by decide) u ('(' :: ds)]
      by_cases hemp : (u.takeWhile Char.isDigit).isEmpty = true
      · rw [if_pos hemp, if_pos hemp]
      · rw [if_neg hemp, if_neg hemp]
        rw [ih hbts (u.dropWhile Char.isDigit) (noTrailWs_dropWhile _ hu)]
    | d4 =>
      have hbts : benign ci ts = true := hb
      rcases u with _ | ⟨a1, _ | ⟨a2, _ | ⟨a3, _ | ⟨a4, u'⟩⟩⟩⟩
      · simp [runToks, List.take_succ_cons]
      · simp [runToks, List.take_succ_cons]
      · simp [runToks, List.take_succ_cons]
      · simp [runToks, List.take_succ_cons]
      · simp only [List.cons_append, runToks, List.take_succ_cons,
          List.drop_succ_cons, List.take_zero, List.drop_zero]
        by_cases hcond : ([a1, a2, a3, a4].length = 4 &&
            [a1, a2, a3, a4].all Char.isDigit) = true
        · rw [if_pos hcond, if_pos hcond]
          rw [ih hbts u' (noTrailWs_cons_tail (noTrailWs_cons_tail
            (noTrailWs_cons_tail (noTrailWs_cons_tail hu))))]
        · rw [if_neg hcond, if_neg hcond]
    | alpha1 => simp [benign] at hb
    | nplus cs => simp [benign] at hb
    | d12 => simp [benign] at hb

theorem titleMatch_append_paren (t ds : List Char) (ht : noTrailWs t = true) :
    titleMatch (t ++ '\n' :: '(' :: ds) = titleMatch t := by
  unfold titleMatch
  have h1 := runToks_append_paren true ds (titleToksOf "DECRETO".data)
    (by decide) t ht
  have h2 := runToks_append_paren true ds (titleToksOf "RESOLUCIÓN".data)
    (by decide) t ht
  have h3 := runToks_append_paren true ds
    (titleToksOf "RESOLUCIÓN EJECUTIVA".data) (by decide) t ht
  have h4 := runToks_append_paren true ds
    (titleToksOf "CIRCULAR EXTERNA CONJUNTA".data) (by decide) t ht
  have h5 := runToks_append_paren true ds (titleToksOf "ACUERDO".data)
    (by decide) t ht
  simp only [titleKws, List.map_cons, List.map_nil, h1, h2, h3, h4, h5]

theorem isDateLine_head {x : List Char} (h : isDateLine x = true) :
    ∃ ds, x = '(' :: ds := by
  unfold isDateLine at h
  rcases x with _ | ⟨c, t⟩
  · simp at h
  · simp only [List.headD, Bool.and_eq_true, decide_eq_true_eq] at h
    exact ⟨t, by rw [h.1]⟩

theorem dateScan_fst (ls : List (List Char)) :
    (dateScan ls).1 = [] ∨ ∃ ds, (dateScan ls).1 = '(' :: ds := by
  induction ls with
  | nil => exact Or.inl rfl
  | cons l rest ih =>
    simp only [dateScan]
    rcases hrec : dateScan rest with ⟨d, dls⟩
    rw [hrec] at ih
    by_cases hd : isDateLine (strip l) = true
    · rw [if_pos hd]
      by_cases hde : d.isEmpty = true
      · rw [if_pos hde]
        exact Or.inr (isDateLine_head hd)
      · rw [if_neg hde]
        rcases ih with h | h
        · exact absurd (by rw [show d = [] from h]; rfl) hde
        · exact Or.inr h
    · rw [if_neg hd]
      exact ih

/-- C7: title-field extraction is idempotent — re-applying the anchored
`(tipo, numero, anio)` extraction to the produced `titulo` (the title
line, possibly with the parenthesized date line appended) yields exactly
the triple extracted from the span's first line, including the
empty-triple failure case, because the appended `(`-line can never extend
or create a match of the anchored pattern. -/
theorem C7_title_idempotent (content : List Char) :
    tripleFrom (tituloOf content) = tripleFrom (titleLineOf content) := by
  unfold tituloOf
  by_cases h : (dateOf content).isEmpty = true
  · rw [if_pos h]
  · rw [if_neg h]
    rcases dateScan_fst (splitLines content).tail with hd | ⟨ds, hds⟩
    · exact absurd (by rw [show dateOf content =
        (dateScan (splitLines content).tail).1 from rfl, hd]; rfl) h
    · have hds' : dateOf content = '(' :: ds := hds
      rw [hds']
      unfold tripleFrom
      rw [titleMatch_append_paren (titleLineOf content) ds (noTrailWs_strip _)]

end PdfAnalyzer
